import Mathlib

/-!
Verification development for the `gret` Blender add-on (rig export helpers and
shape-key cleanup operators).

The host application (Blender) owns the scene graph; we shallowly embed the
objects the add-on reads and mutates:

* an armature's (data) bones form a forest, represented as a list of `Bone`
  records whose `parent` field is an index into the same list; well-formedness
  (`ParentsWF`) asks every parent index to be smaller than the child's index,
  which holds for the host's natural parent-before-child ordering;
* pose bones carry animatable transform channels and a dictionary of custom
  properties; transform floats are modelled as rationals (the code only writes
  the exact constants 0 and 1 into them);
* scene-level exporter settings are an association list keyed by the setting
  name, updated by `setS`; the `arp_export_actlist` collection is kept
  structurally as a list of action lists;
* host operators (the ARP export panel, the FBX exporter) and host reflection
  (`path_resolve` used by `PropertyWrapper`) are external: the embedded export
  procedures are parameterised over them;
* exceptions are modelled by `ExResult`, which pairs the outcome with the
  state at the moment of return or raise (mutations are in place, so state at
  a raise persists).
-/

/-- Values a Blender custom (ID) property can hold, as far as `clear_pose`
distinguishes them: ints, floats, strings, and anything else (for which
`type(value)()` raises `TypeError` and the code leaves the value alone). -/
inductive PVal where
  | pint (n : Int)
  | pfloat (q : ℚ)
  | pstr (s : String)
  | pother (tag : String)
  deriving DecidableEq, Repr

/-- A (data) bone of an armature: `rig.data.bones` entry. `parent` is the index
of the parent bone in the armature's bone list, if any. -/
structure Bone where
  bname : String
  use_deform : Bool
  parent : Option Nat
  deriving DecidableEq, Repr

/-- A pose bone: per-bone animatable transforms and custom properties. -/
structure PoseBone where
  pname : String
  props : List (String × PVal)
  location : ℚ × ℚ × ℚ
  rotation_quaternion : ℚ × ℚ × ℚ × ℚ
  rotation_euler : ℚ × ℚ × ℚ
  rotation_axis_angle : ℚ × ℚ × ℚ × ℚ
  scale : ℚ × ℚ × ℚ
  deriving DecidableEq, Repr

/-- A host scene object, with the fields the embedded code touches.  For an
armature, `bones` is `obj.data.bones`, `pose_bones` is `obj.pose.bones` and
`pose_position` is `obj.data.pose_position`; for a mesh, `vertex_groups` lists
the names of its vertex groups.  `props` are object-level custom properties. -/
structure BObj where
  name : String
  otype : String
  pose_position : String
  bones : List Bone
  pose_bones : List PoseBone
  vertex_groups : List String
  props : List (String × PVal)
  deriving DecidableEq, Repr

/-! ### Bone-list accessors and updates -/

/-- Deform flag of bone `i` (`False` when out of range). -/
def deformAt (bs : List Bone) (i : Nat) : Bool :=
  ((bs[i]?).map Bone.use_deform).getD false

/-- Name of bone `i` (empty when out of range). -/
def nameAt (bs : List Bone) (i : Nat) : String :=
  ((bs[i]?).map Bone.bname).getD ""

/-- Parent index of bone `i`, if bone `i` exists and has a parent. -/
def parentAt (bs : List Bone) (i : Nat) : Option Nat :=
  (bs[i]?).bind Bone.parent

/-- Write the deform flag of bone `i` (no-op when out of range). -/
def setDeform (bs : List Bone) (i : Nat) (d : Bool) : List Bone :=
  match bs[i]? with
  | some b => bs.set i { b with use_deform := d }
  | none => bs

/-- Parent indices point strictly downwards: the host lists a bone after its
parent in the armature's bone collection.  (Decidable form, so witnesses can
check it on concrete armatures.) -/
def parentsWFb (bs : List Bone) : Bool :=
  (List.range bs.length).all (fun i =>
    match parentAt bs i with
    | none => true
    | some p => p < i)

/-- `i` is a strict ancestor of `j`: chasing `parent` links up from `j` reaches
`i`.  `fuel` bounds the chase; under `ParentsWF`, `fuel = j` suffices. -/
def isAncestor (bs : List Bone) (fuel : Nat) (i j : Nat) : Bool :=
  match fuel with
  | 0 => false
  | fuel + 1 =>
    match parentAt bs j with
    | none => false
    | some p => p == i || isAncestor bs fuel i p

/-- The transitive-closure ancestor relation, fuel-free. -/
inductive AncRel (bs : List Bone) : Nat → Nat → Prop where
  | parent {i j : Nat} : parentAt bs j = some i → AncRel bs i j
  | step {i p j : Nat} : parentAt bs j = some p → AncRel bs i p → AncRel bs i j

/-! ### `unmark_bones` (src/rig/helpers.py lines 222-232)

`fnmatch` glob matching lives in the Python standard library; the embedding is
parameterised over the match predicate `fnm pattern name`. -/

/-- `any(fnmatch(bone.name, s) for s in bone_names)`. -/
def matchesAny (fnm : String → String → Bool) (patterns : List String)
    (name : String) : Bool :=
  patterns.any (fun s => fnm s name)

/-- Clearing pass over a bone-list suffix whose head sits at index `j0` of the
full list `bs`: bone `j` loses its deform flag when `j = i` or `i` is an
ancestor of `j`. -/
def clearDescAux (bs : List Bone) (i : Nat) : List Bone → Nat → List Bone
  | [], _ => []
  | b :: rest, j0 =>
    (if j0 == i || isAncestor bs j0 i j0 then { b with use_deform := false }
     else b) :: clearDescAux bs i rest (j0 + 1)

/-- Clear the deform flag of bone `i` and of every strict descendant of `i`
(the net effect of `bone.use_deform = False` followed by the
`children_recursive` loop, which clears each currently-deforming child). -/
def clearDescendants (bs : List Bone) (i : Nat) : List Bone :=
  clearDescAux bs i bs 0

/-- One iteration of the `for bone in rig.data.bones` loop of `unmark_bones`:
acts on the current (mutated) bone list `acc` at index `i`. -/
def unmarkStep (fnm : String → String → Bool) (patterns : List String)
    (acc : List Bone) (i : Nat) : List Bone :=
  if deformAt acc i && matchesAny fnm patterns (nameAt acc i) then
    clearDescendants acc i
  else acc

/-- `unmark_bones(rig, bone_names)`: iterate over the bones in collection
order; a bone that still deforms and matches a pattern is unmarked together
with all its recursive children.  (The `num_deform` bookkeeping in the source
only feeds the log message and is omitted.) -/
def unmark_bones (fnm : String → String → Bool) (bs : List Bone)
    (patterns : List String) : List Bone :=
  (List.range bs.length).foldl (unmarkStep fnm patterns) bs

/-! ### `unmark_unused_bones` (src/rig/helpers.py lines 234-252) -/

/-- Vertex-group names gathered from the mesh objects among `objs`.  The
source collects them into a `set`; dedup and order only affect the logged
count, not the final flags, so a flat list is kept. -/
def vgroupNames (objs : List BObj) : List String :=
  (objs.filter (fun o => o.otype == "MESH")).flatMap BObj.vertex_groups

/-- Index search by bone name (first hit), written as plain recursion. -/
def findBoneIdxAux (g : String) : List Bone → Option Nat
  | [] => none
  | b :: rest =>
    if b.bname == g then some 0 else (findBoneIdxAux g rest).map (· + 1)

/-- `bones.get(name)`: index of the first bone with the given name. -/
def findBoneIdx (bs : List Bone) (g : String) : Option Nat :=
  findBoneIdxAux g bs

/-- The `while bone: bone.use_deform = True; bone = bone.parent` walk, marking
bone `i` and its ancestors.  Under `ParentsWF`, `fuel = i + 1` suffices. -/
def markChain (bs : List Bone) (fuel : Nat) (i : Nat) : List Bone :=
  match fuel with
  | 0 => bs
  | fuel + 1 =>
    let bs1 := setDeform bs i true
    match parentAt bs i with
    | none => bs1
    | some p => markChain bs1 fuel p

/-- The body of the `for vgroup_name in vgroup_names` loop: look the name up
among the bones and, when found, mark that bone and its ancestors. -/
def markVGStep (acc : List Bone) (g : String) : List Bone :=
  match findBoneIdx acc g with
  | some j => markChain acc (j + 1) j
  | none => acc

/-- `unmark_unused_bones(rig, objs)`: clear every deform flag, then for each
vertex-group name of an exported mesh re-mark the bone of that name and all
its ancestors. -/
def unmark_unused_bones (bs : List Bone) (objs : List BObj) : List Bone :=
  let cleared := bs.map (fun b => { b with use_deform := false })
  (vgroupNames objs).foldl markVGStep cleared

/-- `i` lies on the parent chain starting at `j` (i.e. `i = j` or `i` is a
strict ancestor of `j`); the exact set of bones `markChain` touches. -/
def chainContains (bs : List Bone) (fuel : Nat) (j i : Nat) : Bool :=
  match fuel with
  | 0 => false
  | fuel + 1 =>
    (j == i) ||
      match parentAt bs j with
      | none => false
      | some p => chainContains bs fuel p i

/-! ### `clear_pose` (src/rig/helpers.py lines 149-192) -/

/-- `is_object_arp(obj)` on a non-None object: an armature with a bone named
`c_pos`. -/
def is_object_arp (o : BObj) : Bool :=
  o.otype == "ARMATURE" && o.bones.any (fun b => b.bname == "c_pos")

/-- The `arp_default_pose_values` table; `none` marks the `autolips` row whose
recorded default is Python `None` (the code skips resetting it). -/
def arp_default_pose_values : List (String × Option PVal) :=
  [ ("arm_twist", some (.pfloat 0)),
    ("auto_eyelid", some (.pfloat (1 / 10))),
    ("auto_stretch", some (.pfloat 0)),
    ("autolips", none),
    ("bend_all", some (.pfloat 0)),
    ("elbow_pin", some (.pfloat 0)),
    ("eye_target", some (.pfloat 1)),
    ("fingers_grasp", some (.pfloat 0)),
    ("fix_roll", some (.pfloat 0)),
    ("head_free", some (.pint 0)),
    ("ik_fk_switch", some (.pfloat 1)),
    ("ik_tip", some (.pint 0)),
    ("leg_pin", some (.pfloat 0)),
    ("lips_retain", some (.pfloat 0)),
    ("lips_stretch", some (.pfloat 1)),
    ("pole_parent", some (.pint 1)),
    ("stretch_length", some (.pfloat 1)),
    ("stretch_mode", some (.pint 1)),
    ("thigh_twist", some (.pfloat 0)),
    ("twist", some (.pfloat 0)),
    ("volume_variation", some (.pfloat 0)),
    ("y_scale", some (.pint 2)) ]

/-- `default_pose_values = {}` in the source. -/
def default_pose_values : List (String × Option PVal) := []

/-- Association-list lookup by key. -/
def lookupKV {α : Type} (kvs : List (String × α)) (k : String) : Option α :=
  (kvs.find? (fun kv => kv.1 == k)).map Prod.snd

/-- `prop_name.startswith("_")`, written on the underlying character list so
that it evaluates by kernel reduction on concrete names. -/
def startsWithUnderscore (k : String) : Bool :=
  match k.data with
  | [] => false
  | c :: _ => c == Char.ofNat 95

/-- `type(prop_value)()`: the zero value of the property's runtime type;
`pother` stands for the types where the call raises `TypeError` and the
`except TypeError: pass` branch leaves the value untouched. -/
def zeroOfType : PVal → PVal
  | .pint _ => .pint 0
  | .pfloat _ => .pfloat 0
  | .pstr _ => .pstr ""
  | .pother t => .pother t

/-- New value of one pose-bone custom property under the `clear_bone_props`
branch cascade of `clear_pose`. -/
def clearedPropValue (is_arp : Bool) (k : String) (v : PVal) : PVal :=
  if is_arp && (lookupKV arp_default_pose_values k).isSome then
    match lookupKV arp_default_pose_values k with
    | some (some d) => d
    | _ => v
  else if (lookupKV default_pose_values k).isSome then
    match lookupKV default_pose_values k with
    | some (some d) => d
    | _ => v
  else if startsWithUnderscore k then v
  else zeroOfType v

/-- The per-pose-bone body of the `clear_pose` loop: reset custom properties
(when requested), then write identity into every transform channel. -/
def clearPoseBone (is_arp : Bool) (clear_bone_props : Bool) (pb : PoseBone) :
    PoseBone :=
  let pb1 :=
    if clear_bone_props then
      { pb with props := pb.props.map (fun kv =>
          (kv.1, clearedPropValue is_arp kv.1 kv.2)) }
    else pb
  { pb1 with
    location := (0, 0, 0),
    rotation_quaternion := (1, 0, 0, 0),
    rotation_euler := (0, 0, 0),
    rotation_axis_angle := (0, 0, 1, 0),
    scale := (1, 1, 1) }

/-- `clear_pose(obj, ...)`.  `resolveGret` stands for the `clear_gret_props`
block (lines 155-162), which resolves the data paths recorded in the object's
`'properties'` custom property through the host's `path_resolve` reflection
(`PropertyWrapper`) and writes each property's default back; that reflection
is host API, so the block is an opaque parameter acting on the object. -/
def clear_pose (resolveGret : BObj → BObj) (obj : Option BObj)
    (clear_gret_props : Bool := true) (clear_armature_props : Bool := false)
    (clear_bone_props : Bool := true) : Option BObj :=
  match obj with
  | none => none
  | some o =>
    if o.otype ≠ "ARMATURE" then some o
    else
      let o1 := if clear_gret_props then resolveGret o else o
      let o2 :=
        if clear_armature_props then
          { o1 with props := o1.props.map (fun kv =>
              match kv.2 with
              | .pfloat _ => (kv.1, .pfloat 0)
              | v => (kv.1, v)) }
        else o1
      let arp := is_object_arp o2
      some { o2 with pose_bones :=
        o2.pose_bones.map (clearPoseBone arp clear_bone_props) }

/-! ### Export plumbing: results, exceptions, the intercept wrapper -/

/-- Host operator results (`{'FINISHED'}` / `{'CANCELLED'}`). -/
inductive OpResult where
  | FINISHED
  | CANCELLED
  deriving DecidableEq, Repr

/-- Outcome of running an embedded procedure over a state of type `σ`:
either a value together with the state at return, or a raised exception
message together with the state at the moment of the raise (mutations are in
place, so they persist across a raise). -/
inductive ExResult (σ α : Type) where
  | ok (val : α) (state : σ)
  | err (msg : String) (state : σ)
  deriving DecidableEq, Repr

/-- State carried by an `ExResult`, whichever way it ended. -/
def ExResult.state {σ α : Type} : ExResult σ α → σ
  | .ok _ s => s
  | .err _ s => s

/-- Modelled from the spec: the `intercept` decorator (gret `helpers` module,
not under src/) catches any exception raised by the wrapped export procedure,
logs it, and returns the decorator's `error_result` instead; on a normal
return it passes the result through. -/
def intercept {σ : Type} (error_result : OpResult)
    (r : ExResult σ OpResult) : OpResult × σ :=
  match r with
  | .ok v s => (v, s)
  | .err _ s => (error_result, s)

/-- The caller-supplied export options dictionary; `.get` defaults follow the
source (`export_twist` defaults true, the others falsy/empty). -/
structure Options where
  export_twist : Bool := true
  minimize_bones : Bool := false
  remove_bones : List String := []
  deriving DecidableEq, Repr

/-- Python `int()` applied to a float: truncation toward zero. -/
def pyInt (q : ℚ) : Int :=
  q.num.tdiv q.den

/-! ### Scene model for `export_autorig` -/

/-- Values of the scalar `arp_*` scene settings. -/
inductive SVal where
  | sbool (b : Bool)
  | sint (n : Int)
  | sfloat (q : ℚ)
  | sstr (s : String)
  deriving DecidableEq, Repr

/-- A Blender action: custom frame range flag and bounds, and the
curve-derived frame range. -/
structure BAction where
  aname : String
  use_frame_range : Bool
  frame_start : ℚ
  frame_end : ℚ
  curve_frame_range : ℚ × ℚ
  deriving DecidableEq, Repr

/-- One entry of `scene.arp_export_actlist`; `actions` holds the actions
added to it. -/
structure ActList where
  actions : List BAction
  deriving DecidableEq, Repr

/-- Contents of the patched module slot `<arp export module>.arp_save`:
either some host function (originally the ARP add-on's own `arp_save`), or
gret's wrapper from src/rig/helpers.py lines 254-263 with the `options`
keyword bound by `patcher['options'] = options`. -/
inductive SlotVal where
  | hostFn (id : String)
  | gretPatched (options : Options)
  deriving DecidableEq, Repr

/-- Scene-level attribute assignment `scn.<k> = v`, as shadowing in the
association list (`lookupS` reads the most recent binding). -/
def setS (ps : List (String × SVal)) (k : String) (v : SVal) :
    List (String × SVal) :=
  (k, v) :: ps

/-- Scene-level attribute read. -/
def lookupS (ps : List (String × SVal)) (k : String) : Option SVal :=
  lookupKV ps k

/-- The state `export_autorig` reads and mutates: the scene's scalar `arp_*`
settings and its `arp_export_actlist` collection, the rig object, the
module slot the `FunctionPatcher` bracket replaces, and the view-layer
selection. -/
structure ARState where
  props : List (String × SVal)
  actlists : List ActList
  rig : BObj
  arpSlot : SlotVal
  selectedNames : List String
  activeName : Option String
  deriving DecidableEq, Repr

/-! ### `export_autorig` (src/rig/helpers.py lines 265-351) -/

/-- The seven expected IK helper bone names. -/
def ik_bone_names : List String :=
  [ "ik_foot_root", "ik_foot.l", "ik_foot.r", "ik_hand_root",
    "ik_hand_gun", "ik_hand.l", "ik_hand.r" ]

/-- `rig.pose.bones[s]`: first pose bone with the given name. -/
def poseBoneByName (o : BObj) (s : String) : Option PoseBone :=
  o.pose_bones.find? (fun pb => pb.pname == s)

/-- `'custom_bone' in pose_bone`: the pose bone has a custom property `k`. -/
def pbHasProp (pb : PoseBone) (k : String) : Bool :=
  pb.props.any (fun kv => kv.1 == k)

/-- `s not in rig.pose.bones or 'custom_bone' not in rig.pose.bones[s]`. -/
def ikBoneMissing (o : BObj) (s : String) : Bool :=
  match poseBoneByName o s with
  | none => true
  | some pb => !pbHasProp pb "custom_bone"

/-- The `ik_bones_not_found` list computed at the top of `export_autorig`. -/
def ik_bones_not_found (o : BObj) : List String :=
  ik_bone_names.filter (ikBoneMissing o)

/-- The error message raised on a partial IK bone setup. -/
def ikErrorMsg (o : BObj) : String :=
  "Some IK bones are missing or not marked for export: " ++
    String.intercalate ", " (ik_bones_not_found o)

/-- The expected IK bones that ARE present as pose bones carrying a
`custom_bone` property — the complement of `ik_bones_not_found`. -/
def ik_bones_found (o : BObj) : List String :=
  ik_bone_names.filter (fun s => !ikBoneMissing o s)

/-- The configuration phase of `export_autorig` after the IK check passed,
with `add_ik_bones` already decided (lines 283-348): scene settings, the
animation block, pose reset, and selection, in source order.  `resolveGret`
is the host-reflection parameter forwarded to `clear_pose`. -/
def export_autorig_configure (resolveGret : BObj → BObj) (st : ARState)
    (objects : List BObj) (action : Option BAction) (options : Options)
    (add_ik_bones : Bool) : ARState :=
  let ps := st.props
  let ps := setS ps "arp_engine_type" (.sstr "unreal")
  let ps := setS ps "arp_export_rig_type" (.sstr "humanoid")
  let ps := setS ps "arp_ge_sel_only" (.sbool true)
  let ps := setS ps "arp_keep_bend_bones" (.sbool false)
  let ps := setS ps "arp_push_bend" (.sbool false)
  let ps := setS ps "arp_full_facial" (.sbool true)
  let ps := setS ps "arp_export_twist" (.sbool options.export_twist)
  let ps := setS ps "arp_export_noparent" (.sbool false)
  let ps := setS ps "arp_export_renaming" (.sbool true)
  let ps := setS ps "arp_units_x100" (.sbool true)
  let ps := setS ps "arp_ue4" (.sbool true)
  let ps := setS ps "arp_ue_root_motion" (.sbool true)
  let ps := setS ps "arp_rename_for_ue" (.sbool true)
  let ps := setS ps "arp_ue_ik" (.sbool add_ik_bones)
  let ps := setS ps "arp_ue_ik_anim" (.sbool true)
  let ps := setS ps "arp_mannequin_axes" (.sbool true)
  let anim :=
    match action with
    | none => (setS ps "arp_bake_anim" (.sbool false), st.actlists)
    | some a =>
      let ps := setS ps "arp_bake_anim" (.sbool true)
      let ps := setS ps "arp_bake_type" (.sstr "ACTIONS")
      let ps := setS ps "arp_export_separate_fbx" (.sbool false)
      let ps := setS ps "arp_frame_range_type" (.sstr "CUSTOM")
      let ps :=
        if a.use_frame_range then
          let ps := setS ps "arp_export_start_frame" (.sint (pyInt a.frame_start))
          setS ps "arp_export_end_frame" (.sint (pyInt a.frame_end))
        else
          let ps := setS ps "arp_export_start_frame"
            (.sint (pyInt a.curve_frame_range.1))
          setS ps "arp_export_end_frame" (.sint (pyInt a.curve_frame_range.2))
      let ps := setS ps "arp_export_act_name" (.sstr "DEFAULT")
      let ps := setS ps "arp_simplify_fac" (.sfloat 0)
      let ps := setS ps "arp_export_use_actlist" (.sbool true)
      (ps, [{ actions := [a] }])
  let ps := anim.1
  let ps := setS ps "arp_global_scale" (.sfloat 1)
  let ps := setS ps "arp_mesh_smooth_type" (.sstr "EDGE")
  let ps := setS ps "arp_use_tspace" (.sbool false)
  let ps := setS ps "arp_fix_fbx_rot" (.sbool true)
  let ps := setS ps "arp_fix_fbx_matrix" (.sbool true)
  let ps := setS ps "arp_init_fbx_rot" (.sbool false)
  let ps := setS ps "arp_init_fbx_rot_mesh" (.sbool false)
  let ps := setS ps "arp_bone_axis_primary_export" (.sstr "Y")
  let ps := setS ps "arp_bone_axis_secondary_export" (.sstr "X")
  let ps := setS ps "arp_export_rig_name" (.sstr "root")
  let ps := setS ps "arp_export_tex" (.sbool false)
  let rig1 := { st.rig with pose_position := "POSE" }
  let rig2 := (clear_pose resolveGret (some rig1)).getD rig1
  { st with
    props := ps,
    actlists := anim.2,
    rig := rig2,
    selectedNames := (objects.map BObj.name) ++ [rig2.name],
    activeName := some rig2.name }

/-- Everything `export_autorig` does before entering the `FunctionPatcher`
bracket: the IK-bone check (which raises on a partial setup, before any
mutation) followed by `export_autorig_configure`. -/
def export_autorig_prep (resolveGret : BObj → BObj) (st : ARState)
    (objects : List BObj) (action : Option BAction) (options : Options) :
    Except String ARState :=
  let notFound := ik_bones_not_found st.rig
  if notFound.isEmpty then
    .ok (export_autorig_configure resolveGret st objects action options false)
  else if notFound.length == ik_bone_names.length then
    .ok (export_autorig_configure resolveGret st objects action options true)
  else
    .error (ikErrorMsg st.rig)

/-- The body of `export_autorig` (before the `intercept` wrapper).  `arpOp`
stands for the host operator `bpy.ops.id.arp_export_fbx_panel(filepath=...)`;
the `with FunctionPatcher(...)` bracket is modelled from the spec: it saves
the module slot, installs gret's `arp_save` wrapper with the bound `options`,
runs the exporter, and unconditionally restores the saved slot whether the
exporter returns or raises. -/
def export_autorig_inner (resolveGret : BObj → BObj)
    (arpOp : ARState → ExResult ARState OpResult) (st : ARState)
    (objects : List BObj) (action : Option BAction) (options : Options) :
    ExResult ARState OpResult :=
  match export_autorig_prep resolveGret st objects action options with
  | .error msg => .err msg st
  | .ok s =>
    let saved := s.arpSlot
    match arpOp { s with arpSlot := SlotVal.gretPatched options } with
    | .ok r s2 => .ok r { s2 with arpSlot := saved }
    | .err e s2 => .err e { s2 with arpSlot := saved }

/-- `export_autorig` as invoked by callers: the body under
`@intercept(error_result={'CANCELLED'})`. -/
def export_autorig (resolveGret : BObj → BObj)
    (arpOp : ARState → ExResult ARState OpResult) (st : ARState)
    (objects : List BObj) (action : Option BAction) (options : Options) :
    OpResult × ARState :=
  intercept .CANCELLED
    (export_autorig_inner resolveGret arpOp st objects action options)

/-! ### `export_fbx` (src/rig/helpers.py lines 421-499) -/

/-- The state `export_fbx` reads and mutates: the host's object registry
(`bpy.data.objects`, kept as an identity-stable list), the index of the rig
argument within it, and the view-layer selection. -/
structure FbxScene where
  objects : List BObj
  rigIdx : Nat
  selectedNames : List String
  activeName : Option String
  deriving DecidableEq, Repr

/-- Name of object `i` of the registry (empty when out of range). -/
def objNameAt (s : FbxScene) (i : Nat) : String :=
  ((s.objects[i]?).map BObj.name).getD ""

/-- Rename object `i` (no-op when out of range). -/
def setObjName (s : FbxScene) (i : Nat) (n : String) : FbxScene :=
  match s.objects[i]? with
  | some o => { s with objects := s.objects.set i { o with name := n } }
  | none => s

/-- Index search by object name (first hit), written as plain recursion. -/
def findObjIdxAux (n : String) : List BObj → Option Nat
  | [] => none
  | o :: rest =>
    if o.name == n then some 0 else (findObjIdxAux n rest).map (· + 1)

/-- `bpy.data.objects.get(name)`: index of the first object with that name. -/
def findObjIdxByName (s : FbxScene) (n : String) : Option Nat :=
  findObjIdxAux n s.objects

/-- Mutate the rig object in place. -/
def updateRigObj (s : FbxScene) (f : BObj → BObj) : FbxScene :=
  match s.objects[s.rigIdx]? with
  | some o => { s with objects := s.objects.set s.rigIdx (f o) }
  | none => s

/-- The mutations `export_fbx` performs before calling the host FBX export
operator (lines 432-450), in source order: rename away a pre-existing object
named `root`, remember and overwrite the rig's name, force pose position,
`clear_pose`, the optional bone minimization / removal, and selection.
Returns the prepared scene, the saved rig name, and the index of the
pre-existing `root` object, if any. -/
def export_fbx_prep (fnm : String → String → Bool) (resolveGret : BObj → BObj)
    (st : FbxScene) (objects : List BObj) (options : Options) :
    FbxScene × String × Option Nat :=
  let existingIdx := findObjIdxByName st "root"
  let st1 :=
    match existingIdx with
    | some j => setObjName st j "root_"
    | none => st
  let saved := objNameAt st1 st1.rigIdx
  let st2 := setObjName st1 st1.rigIdx "root"
  let st3 := updateRigObj st2 (fun r => { r with pose_position := "POSE" })
  let st4 := updateRigObj st3 (fun r => (clear_pose resolveGret (some r)).getD r)
  let st5 :=
    if options.minimize_bones then
      updateRigObj st4 (fun r => { r with bones := unmark_unused_bones r.bones objects })
    else st4
  let st6 :=
    if options.remove_bones ≠ [] then
      updateRigObj st5 (fun r => { r with bones := unmark_bones fnm r.bones options.remove_bones })
    else st5
  let st7 := { st6 with
    selectedNames := (objects.map BObj.name) ++ [objNameAt st6 st6.rigIdx],
    activeName := some (objNameAt st6 st6.rigIdx) }
  (st7, saved, existingIdx)

/-- The body of `export_fbx` (before the `intercept` wrapper).  `fbxOp`
stands for the host operator `bpy.ops.export_scene.fbx(filepath=..., ...)`
with its long list of hard-coded arguments; only its effect on the modelled
scene and its outcome matter here.  With an action the body raises
`NotImplementedError` before touching anything; the name restore of lines
494-497 runs only when the host operator returns normally (there is no
try/finally around the call). -/
def export_fbx_inner (fnm : String → String → Bool) (resolveGret : BObj → BObj)
    (fbxOp : FbxScene → ExResult FbxScene OpResult) (st : FbxScene)
    (objects : List BObj) (action : Option BAction) (options : Options) :
    ExResult FbxScene OpResult :=
  match action with
  | some _ => .err "NotImplementedError" st
  | none =>
    let prep := export_fbx_prep fnm resolveGret st objects options
    match fbxOp prep.1 with
    | .ok r s5 =>
      let s6 := setObjName s5 st.rigIdx prep.2.1
      let s7 :=
        match prep.2.2 with
        | some j => setObjName s6 j "root"
        | none => s6
      .ok r s7
    | .err e s5 => .err e s5

/-- `export_fbx` as invoked by callers: the body under
`@intercept(error_result={'CANCELLED'})`. -/
def export_fbx (fnm : String → String → Bool) (resolveGret : BObj → BObj)
    (fbxOp : FbxScene → ExResult FbxScene OpResult) (st : FbxScene)
    (objects : List BObj) (action : Option BAction) (options : Options) :
    OpResult × FbxScene :=
  intercept .CANCELLED (export_fbx_inner fnm resolveGret fbxOp st objects action options)

/-! ### `GRET_OT_shape_key_clean.execute` (src/mesh/shape_key_clean.py) -/

/-- Modelled from the spec: `get_dist_sq` (gret `math` module, not under
src/) returns the squared distance between two points. -/
def get_dist_sq (a b : ℚ × ℚ × ℚ) : ℚ :=
  (a.1 - b.1) ^ 2 + (a.2.1 - b.2.1) ^ 2 + (a.2.2 - b.2.2) ^ 2

/-- The mesh state the operator reads and mutates: base vertex coordinates
and the active shape key's per-vertex coordinates (indexed alike). -/
structure CleanMesh where
  vertices : List (ℚ × ℚ × ℚ)
  sk_data : List (ℚ × ℚ × ℚ)
  deriving DecidableEq, Repr

/-- One iteration of the vertex loop: when the squared delta of vertex `i`
is below the fixed `threshold = 0.00000001`, snap the shape-key coordinate
back to the base coordinate and count the vertex. -/
def shapeKeyCleanStep (verts : List (ℚ × ℚ × ℚ))
    (acc : List (ℚ × ℚ × ℚ) × Nat) (i : Nat) : List (ℚ × ℚ × ℚ) × Nat :=
  let v := verts.getD i (0, 0, 0)
  let s := acc.1.getD i (0, 0, 0)
  if get_dist_sq v s < 1 / 100000000 then (acc.1.set i v, acc.2 + 1)
  else acc

/-- `GRET_OT_shape_key_clean.execute`: the operator's `distance` property is
taken as an argument exactly as the operator carries it, and the body never
reads it — the comparison uses the fixed internal threshold.  Returns the
updated mesh, the report line, and the operator result. -/
def shape_key_clean_execute (distance : ℚ) (m : CleanMesh) :
    CleanMesh × String × OpResult :=
  let r := (List.range m.vertices.length).foldl
    (shapeKeyCleanStep m.vertices) (m.sk_data, 0)
  let report :=
    if r.2 > 0 then "Cleaned " ++ toString r.2 ++ " vertices."
    else "No vertices were modified."
  ({ m with sk_data := r.1 }, report, .FINISHED)

/-! ### Concrete states used by witnesses and counterexamples -/

/-- `fnmatch` restricted to wildcard-free patterns is (on POSIX hosts) exact
string equality; witnesses instantiate the match parameter with it. -/
def eqName : String → String → Bool := fun p n => p == n

/-- A blank scene object to build concrete examples from. -/
def emptyBObj : BObj :=
  { name := "", otype := "", pose_position := "", bones := [],
    pose_bones := [], vertex_groups := [], props := [] }

/-- Two-bone armature: `a` (deform already off) with child `b` (deform on). -/
def bsPair : List Bone :=
  [ { bname := "a", use_deform := false, parent := none },
    { bname := "b", use_deform := true, parent := some 0 } ]

/-- Three-bone chain `a` → `b` → `c`, all deforming. -/
def bsChain : List Bone :=
  [ { bname := "a", use_deform := true, parent := none },
    { bname := "b", use_deform := true, parent := some 0 },
    { bname := "c", use_deform := true, parent := some 1 } ]

/-- A mesh whose only vertex group is named `b`. -/
def meshVGb : BObj := { emptyBObj with name := "M", otype := "MESH", vertex_groups := ["b"] }

/-- A pose bone with non-identity transforms and one generic float property. -/
def pbSample : PoseBone :=
  { pname := "x", props := [("foo", .pfloat 5)], location := (1, 2, 3),
    rotation_quaternion := (0, 1, 0, 0), rotation_euler := (1, 1, 1),
    rotation_axis_angle := (1, 0, 0, 0), scale := (2, 2, 2) }

/-- An ARP armature (it has a `c_pos` bone) holding `pbSample`. -/
def armSample : BObj :=
  { emptyBObj with
    name := "A", otype := "ARMATURE",
    bones := [{ bname := "c_pos", use_deform := true, parent := none }],
    pose_bones := [pbSample] }

/-- What `clear_pose` leaves of `pbSample` inside `armSample`. -/
def pbSampleCleared : PoseBone :=
  { pname := "x", props := [("foo", .pfloat 0)], location := (0, 0, 0),
    rotation_quaternion := (1, 0, 0, 0), rotation_euler := (0, 0, 0),
    rotation_axis_angle := (0, 0, 1, 0), scale := (1, 1, 1) }

/-- A mesh object (not an armature), for the `clear_pose` early return. -/
def meshSample : BObj := { emptyBObj with name := "Cube", otype := "MESH" }

/-- An armature with `ik_foot.l`/`ik_foot.r` marked for export and the other
five expected IK bones absent: the spec's example of a partial IK setup. -/
def rigIkPartial : BObj :=
  { emptyBObj with
    name := "R", otype := "ARMATURE",
    pose_bones :=
      [ { pbSample with pname := "ik_foot.l", props := [("custom_bone", .pint 1)] },
        { pbSample with pname := "ik_foot.r", props := [("custom_bone", .pint 1)] } ] }

/-- An armature with no pose bones at all: every IK bone is absent, so
`export_autorig` proceeds and lets ARP create them. -/
def rigNoIk : BObj := { emptyBObj with name := "R", otype := "ARMATURE" }

/-- Autorig export state around `rigIkPartial`. -/
def stIkPartial : ARState :=
  { props := [("pre", .sint 5)], actlists := [], rig := rigIkPartial,
    arpSlot := .hostFn "arp_save_orig", selectedNames := [], activeName := none }

/-- Autorig export state around `rigNoIk`. -/
def stNoIk : ARState :=
  { props := [("pre", .sint 5)], actlists := [], rig := rigNoIk,
    arpSlot := .hostFn "arp_save_orig", selectedNames := [], activeName := none }

/-- A host ARP exporter that succeeds and leaves the state unchanged. -/
def arpOkOp : ARState → ExResult ARState OpResult := fun s => .ok .FINISHED s

/-- An action with a custom frame range `[3/2, 21/2]` and curve range `[0,7]`. -/
def actSample : BAction :=
  { aname := "Run", use_frame_range := true, frame_start := 3 / 2,
    frame_end := 21 / 2, curve_frame_range := (0, 7) }

/-- FBX export scene: rig `MyRig` plus a colliding object already named
`root`. -/
def stFbxSample : FbxScene :=
  { objects :=
      [ { emptyBObj with name := "MyRig", otype := "ARMATURE" },
        { emptyBObj with name := "root", otype := "EMPTY" } ],
    rigIdx := 0, selectedNames := [], activeName := none }

/-- A host FBX exporter that raises, leaving the scene as it found it. -/
def fbxFailOp : FbxScene → ExResult FbxScene OpResult :=
  fun s => .err "RuntimeError" s

/-- A host FBX exporter that succeeds without touching the modelled scene. -/
def fbxOkOp : FbxScene → ExResult FbxScene OpResult :=
  fun s => .ok .FINISHED s

/-- An empty options dictionary (all `.get` defaults). -/
def optsDefault : Options := {}

/-- The scene `export_fbx` hands to the host FBX exporter for
`stFbxSample`. -/
def fbxPrepSample : FbxScene :=
  (export_fbx_prep eqName id stFbxSample [] optsDefault).1

/-- The state `export_autorig` hands to the host exporter when run on
`stNoIk` without an action. -/
def prepNoIk : ARState :=
  export_autorig_configure id stNoIk [] none optsDefault true

/-- The configured state when exporting `actSample` from `stNoIk`. -/
def prepNoIkAct : ARState :=
  export_autorig_configure id stNoIk [] (some actSample) optsDefault true

/-! ## Theorems

First the claims that follow directly from the embeddings, then the lemma
layer for the bone-flag procedures. -/

/-- C9: the Clean Shape Key operator's result is independent of its
user-facing `distance` parameter — `execute` never reads it; modification is
decided solely by the fixed `1e-8` threshold on squared delta distance, so
shape-key data and reports coincide for any two distance values. -/
theorem shape_key_clean_distance_independent (d1 d2 : ℚ) (m : CleanMesh) :
    shape_key_clean_execute d1 m = shape_key_clean_execute d2 m := rfl

/-- C10: on `None` or on an object that is not an armature, `clear_pose`
returns immediately and modifies nothing. -/
theorem clear_pose_non_armature (resolveGret : BObj → BObj) (obj : Option BObj)
    (cg ca cb : Bool) (h : ∀ o, obj = some o → o.otype ≠ "ARMATURE") :
    clear_pose resolveGret obj cg ca cb = obj := by
  cases obj with
  | none => rfl
  | some o => simp [clear_pose, h o rfl]

/-- Witness for C10 at a concrete mesh object. -/
theorem clear_pose_non_armature_witness :
    clear_pose id (some meshSample) true false true = some meshSample :=
  clear_pose_non_armature id (some meshSample) true false true
    (fun o ho => by cases ho; decide)

/-- C7: `export_fbx` with an action raises `NotImplementedError` before any
scene mutation (the state at the raise is the input state), and the
`intercept` wrapper converts this into a `CANCELLED` result instead of
propagating the exception. -/
theorem export_fbx_action_not_implemented (fnm : String → String → Bool)
    (resolveGret : BObj → BObj) (fbxOp : FbxScene → ExResult FbxScene OpResult)
    (st : FbxScene) (objects : List BObj) (a : BAction) (options : Options) :
    export_fbx_inner fnm resolveGret fbxOp st objects (some a) options =
      .err "NotImplementedError" st ∧
    export_fbx fnm resolveGret fbxOp st objects (some a) options =
      (.CANCELLED, st) :=
  ⟨rfl, rfl⟩

/-- C5: after `clear_pose` on an armature, every pose bone's location is the
zero vector, its quaternion / euler / axis-angle channels are the identity
rotation, and its scale is `(1, 1, 1)`, whatever the prior pose was. -/
theorem clear_pose_resets_transforms (resolveGret : BObj → BObj) (o : BObj)
    (cg ca cb : Bool) (h : o.otype = "ARMATURE") :
    ∀ pb ∈ (clear_pose resolveGret (some o) cg ca cb).elim [] BObj.pose_bones,
      pb.location = (0, 0, 0) ∧ pb.rotation_quaternion = (1, 0, 0, 0) ∧
      pb.rotation_euler = (0, 0, 0) ∧ pb.rotation_axis_angle = (0, 0, 1, 0) ∧
      pb.scale = (1, 1, 1) := by
  intro pb hpb
  simp only [clear_pose, h, ne_eq, not_true_eq_false, if_false, Option.elim] at hpb
  simp only [List.mem_map] at hpb
  obtain ⟨pb0, _, rfl⟩ := hpb
  simp [clearPoseBone]

/-- Witness for C5 on a concrete ARP armature with a posed bone. -/
theorem clear_pose_resets_transforms_witness :
    pbSampleCleared.location = (0, 0, 0) ∧
    pbSampleCleared.rotation_quaternion = (1, 0, 0, 0) ∧
    pbSampleCleared.rotation_euler = (0, 0, 0) ∧
    pbSampleCleared.rotation_axis_angle = (0, 0, 1, 0) ∧
    pbSampleCleared.scale = (1, 1, 1) :=
  clear_pose_resets_transforms id armSample true false true rfl
    pbSampleCleared (by decide)

/-- The configuration phase never touches the patched module slot. -/
theorem export_autorig_configure_arpSlot (resolveGret : BObj → BObj)
    (st : ARState) (objects : List BObj) (action : Option BAction)
    (options : Options) (b : Bool) :
    (export_autorig_configure resolveGret st objects action options b).arpSlot
      = st.arpSlot := rfl

/-- A successful prep leaves the module slot as it found it. -/
theorem export_autorig_prep_ok_arpSlot {resolveGret : BObj → BObj}
    {st s : ARState} {objects : List BObj} {action : Option BAction}
    {options : Options}
    (hp : export_autorig_prep resolveGret st objects action options = .ok s) :
    s.arpSlot = st.arpSlot := by
  unfold export_autorig_prep at hp
  dsimp only at hp
  split at hp
  · cases hp
    exact export_autorig_configure_arpSlot ..
  · split at hp
    · cases hp
      exact export_autorig_configure_arpSlot ..
    · cases hp

/-- C2: the scoped `FunctionPatcher` bracket.  Whatever the host exporter
does — return or raise — and whatever state `export_autorig` starts from
(including ones where the IK check raises before the bracket is entered),
the `arp_save` module slot ends as it started; and whenever configuration
succeeds, the exporter is invoked exactly on the configured state with the
gret wrapper (with the bound options) installed in the slot, the original
being put back immediately around that call. -/
theorem export_autorig_patch_scoped (resolveGret : BObj → BObj)
    (arpOp : ARState → ExResult ARState OpResult) (st : ARState)
    (objects : List BObj) (action : Option BAction) (options : Options) :
    ((export_autorig resolveGret arpOp st objects action options).2).arpSlot
      = st.arpSlot ∧
    (∀ s, export_autorig_prep resolveGret st objects action options = .ok s →
      export_autorig_inner resolveGret arpOp st objects action options =
        (match arpOp { s with arpSlot := SlotVal.gretPatched options } with
         | .ok r s2 => .ok r { s2 with arpSlot := s.arpSlot }
         | .err e s2 => .err e { s2 with arpSlot := s.arpSlot })) := by
  constructor
  · unfold export_autorig intercept export_autorig_inner
    cases hp : export_autorig_prep resolveGret st objects action options with
    | error msg => simp
    | ok s =>
      have hs : s.arpSlot = st.arpSlot := export_autorig_prep_ok_arpSlot hp
      dsimp only
      cases harp : arpOp { s with arpSlot := SlotVal.gretPatched options } with
      | ok r s2 => exact hs
      | err e s2 => exact hs
  · intro s hp
    unfold export_autorig_inner
    rw [hp]

/-- Witness for C2: on a concrete armature without IK bones, with a host
exporter that returns normally. -/
theorem export_autorig_patch_scoped_witness :
    ((export_autorig id arpOkOp stNoIk [] none optsDefault).2).arpSlot
      = stNoIk.arpSlot ∧
    export_autorig_inner id arpOkOp stNoIk [] none optsDefault =
      (match arpOkOp { prepNoIk with arpSlot := SlotVal.gretPatched optsDefault } with
       | .ok r s2 => .ok r { s2 with arpSlot := prepNoIk.arpSlot }
       | .err e s2 => .err e { s2 with arpSlot := prepNoIk.arpSlot }) :=
  ⟨(export_autorig_patch_scoped id arpOkOp stNoIk [] none optsDefault).1,
   (export_autorig_patch_scoped id arpOkOp stNoIk [] none optsDefault).2
     prepNoIk rfl⟩

/-- The present and missing IK bones partition the expected seven. -/
theorem ik_found_add_not_found (o : BObj) :
    (ik_bones_found o).length + (ik_bones_not_found o).length = 7 := by
  have h := @List.length_eq_length_filter_add String ik_bone_names (ikBoneMissing o)
  have h7 : ik_bone_names.length = 7 := rfl
  unfold ik_bones_found ik_bones_not_found
  omega

/-- With some but not all expected IK bones present, the IK check raises
before any configuration happens. -/
theorem export_autorig_prep_ik_error {resolveGret : BObj → BObj} {st : ARState}
    {objects : List BObj} {action : Option BAction} {options : Options}
    (h1 : 0 < (ik_bones_found st.rig).length)
    (h2 : (ik_bones_found st.rig).length < 7) :
    export_autorig_prep resolveGret st objects action options =
      .error (ikErrorMsg st.rig) := by
  have hsum := ik_found_add_not_found st.rig
  have hne : (ik_bones_not_found st.rig).isEmpty = false := by
    cases hh : (ik_bones_not_found st.rig).isEmpty
    · rfl
    · have := List.isEmpty_iff.mp hh
      rw [this] at hsum
      simp at hsum
      omega
  have hlen : ((ik_bones_not_found st.rig).length == ik_bone_names.length)
      = false := by
    have h7 : ik_bone_names.length = 7 := rfl
    rw [h7]
    have : (ik_bones_not_found st.rig).length ≠ 7 := by omega
    exact beq_eq_false_iff_ne.mpr this
  unfold export_autorig_prep
  dsimp only
  rw [hne, hlen]
  simp

/-- C1: if strictly a proper, non-empty subset of the seven expected IK bone
names is present as pose bones carrying a `custom_bone` property, then
`export_autorig` raises the "Some IK bones are missing or not marked for
export" error before any scene mutation and independently of the host
exporter (which is therefore never reached), and the `intercept` wrapper
turns this into a `CANCELLED` result with the state exactly as it was. -/
theorem export_autorig_partial_ik_fails (resolveGret : BObj → BObj)
    (arpOp : ARState → ExResult ARState OpResult) (st : ARState)
    (objects : List BObj) (action : Option BAction) (options : Options)
    (h1 : 0 < (ik_bones_found st.rig).length)
    (h2 : (ik_bones_found st.rig).length < 7) :
    export_autorig_inner resolveGret arpOp st objects action options =
      .err (ikErrorMsg st.rig) st ∧
    export_autorig resolveGret arpOp st objects action options =
      (.CANCELLED, st) := by
  have hp := @export_autorig_prep_ik_error resolveGret st objects action options h1 h2
  constructor
  · unfold export_autorig_inner
    rw [hp]
  · unfold export_autorig intercept export_autorig_inner
    rw [hp]

/-- Witness for C1 at the spec's example: only `ik_foot.l`/`ik_foot.r`
present and marked. -/
theorem export_autorig_partial_ik_fails_witness :
    export_autorig_inner id arpOkOp stIkPartial [] none optsDefault =
      .err (ikErrorMsg stIkPartial.rig) stIkPartial ∧
    export_autorig id arpOkOp stIkPartial [] none optsDefault =
      (.CANCELLED, stIkPartial) :=
  export_autorig_partial_ik_fails id arpOkOp stIkPartial [] none optsDefault
    (by decide) (by decide)

/-- Frame range and action list written by the configuration phase when an
action is supplied, for either value of `add_ik_bones`. -/
theorem export_autorig_configure_action_facts (resolveGret : BObj → BObj)
    (st : ARState) (objects : List BObj) (options : Options) (b : Bool)
    (a : BAction) :
    lookupS (export_autorig_configure resolveGret st objects (some a) options b).props
        "arp_export_start_frame" =
      some (.sint (pyInt (if a.use_frame_range then a.frame_start
        else a.curve_frame_range.1))) ∧
    lookupS (export_autorig_configure resolveGret st objects (some a) options b).props
        "arp_export_end_frame" =
      some (.sint (pyInt (if a.use_frame_range then a.frame_end
        else a.curve_frame_range.2))) ∧
    (export_autorig_configure resolveGret st objects (some a) options b).actlists
      = [{ actions := [a] }] := by
  cases hu : a.use_frame_range <;>
    simp [export_autorig_configure, lookupS, lookupKV, setS, List.find?, hu]

/-- C8: with an action, the configured export range comes from the action's
own `frame_start`/`frame_end` (truncated to integers by `int()`) when
`use_frame_range` is set, else from its curve-derived `curve_frame_range`;
and `arp_export_actlist` is cleared and rebuilt to exactly one entry whose
sole action is the given action. -/
theorem export_autorig_action_registered (resolveGret : BObj → BObj)
    (st : ARState) (objects : List BObj) (options : Options) (a : BAction)
    (s : ARState)
    (hp : export_autorig_prep resolveGret st objects (some a) options = .ok s) :
    lookupS s.props "arp_export_start_frame" =
      some (.sint (pyInt (if a.use_frame_range then a.frame_start
        else a.curve_frame_range.1))) ∧
    lookupS s.props "arp_export_end_frame" =
      some (.sint (pyInt (if a.use_frame_range then a.frame_end
        else a.curve_frame_range.2))) ∧
    s.actlists = [{ actions := [a] }] := by
  unfold export_autorig_prep at hp
  dsimp only at hp
  split at hp
  · cases hp
    exact export_autorig_configure_action_facts ..
  · split at hp
    · cases hp
      exact export_autorig_configure_action_facts ..
    · cases hp

/-- Witness for C8 on `stNoIk` with `actSample` (custom range `[3/2, 21/2]`). -/
theorem export_autorig_action_registered_witness :
    lookupS prepNoIkAct.props "arp_export_start_frame" =
      some (.sint (pyInt (if actSample.use_frame_range then actSample.frame_start
        else actSample.curve_frame_range.1))) ∧
    lookupS prepNoIkAct.props "arp_export_end_frame" =
      some (.sint (pyInt (if actSample.use_frame_range then actSample.frame_end
        else actSample.curve_frame_range.2))) ∧
    prepNoIkAct.actlists = [{ actions := [actSample] }] :=
  export_autorig_action_registered id stNoIk [] optsDefault actSample
    prepNoIkAct rfl

/-! ### Lemmas for `export_fbx` (C6) -/

theorem length_setObjName (s : FbxScene) (i : Nat) (n : String) :
    (setObjName s i n).objects.length = s.objects.length := by
  unfold setObjName
  split <;> simp

theorem rigIdx_setObjName (s : FbxScene) (i : Nat) (n : String) :
    (setObjName s i n).rigIdx = s.rigIdx := by
  unfold setObjName
  split <;> rfl

theorem objNameAt_setObjName_self (s : FbxScene) (i : Nat) (n : String)
    (h : i < s.objects.length) : objNameAt (setObjName s i n) i = n := by
  unfold setObjName objNameAt
  cases hg : s.objects[i]? with
  | none =>
    have hle := List.getElem?_eq_none_iff.mp hg
    exact absurd h (Nat.not_lt.mpr hle)
  | some o =>
    simp [List.getElem?_set_self h]

theorem objNameAt_setObjName_ne (s : FbxScene) (i j : Nat) (n : String)
    (h : j ≠ i) : objNameAt (setObjName s i n) j = objNameAt s j := by
  unfold setObjName objNameAt
  cases hg : s.objects[i]? with
  | none => rfl
  | some o => simp [List.getElem?_set_ne (fun hh => h hh.symm)]

theorem length_updateRigObj (s : FbxScene) (f : BObj → BObj) :
    (updateRigObj s f).objects.length = s.objects.length := by
  unfold updateRigObj
  split <;> simp

theorem rigIdx_updateRigObj (s : FbxScene) (f : BObj → BObj) :
    (updateRigObj s f).rigIdx = s.rigIdx := by
  unfold updateRigObj
  split <;> rfl

theorem objNameAt_updateRigObj (s : FbxScene) (f : BObj → BObj)
    (hf : ∀ o, (f o).name = o.name) (j : Nat) :
    objNameAt (updateRigObj s f) j = objNameAt s j := by
  unfold updateRigObj
  cases hg : s.objects[s.rigIdx]? with
  | none => rfl
  | some o =>
    unfold objNameAt
    by_cases hj : s.rigIdx = j
    · subst hj
      have hlt : s.rigIdx < s.objects.length := by
        rcases List.getElem?_eq_some.mp hg with ⟨h1, _⟩
        exact h1
      simp [List.getElem?_set_self hlt, hg, hf o]
    · simp [List.getElem?_set_ne hj]

theorem clear_pose_getD_name (resolveGret : BObj → BObj)
    (hrg : ∀ o, (resolveGret o).name = o.name) (o : BObj)
    (cg ca cb : Bool) :
    ((clear_pose resolveGret (some o) cg ca cb).getD o).name = o.name := by
  unfold clear_pose
  by_cases ht : o.otype = "ARMATURE"
  · simp only [ht, ne_eq, not_true_eq_false, if_false, Option.getD_some]
    cases cg <;> cases ca <;> simp [hrg o]
  · simp [ht]

theorem findObjIdxAux_some {n : String} :
    ∀ {os : List BObj} {j : Nat}, findObjIdxAux n os = some j →
      j < os.length ∧ ((os[j]?).map BObj.name).getD "" = n := by
  intro os
  induction os with
  | nil => intro j h; cases h
  | cons o rest ih =>
    intro j h
    unfold findObjIdxAux at h
    by_cases ho : (o.name == n) = true
    · rw [if_pos ho] at h
      cases h
      simpa using beq_iff_eq.mp ho
    · rw [if_neg ho] at h
      cases hr : findObjIdxAux n rest with
      | none => rw [hr] at h; cases h
      | some k =>
        rw [hr] at h
        cases h
        have := ih hr
        constructor
        · simpa using this.1
        · simpa using this.2

theorem findObjIdxByName_some {s : FbxScene} {n : String} {j : Nat}
    (h : findObjIdxByName s n = some j) :
    j < s.objects.length ∧ objNameAt s j = n :=
  findObjIdxAux_some h

theorem export_fbx_prep_existing (fnm : String → String → Bool)
    (resolveGret : BObj → BObj) (st : FbxScene) (objects : List BObj)
    (options : Options) :
    (export_fbx_prep fnm resolveGret st objects options).2.2 =
      findObjIdxByName st "root" := rfl

theorem export_fbx_prep_rigIdx (fnm : String → String → Bool)
    (resolveGret : BObj → BObj) (st : FbxScene) (objects : List BObj)
    (options : Options) :
    (export_fbx_prep fnm resolveGret st objects options).1.rigIdx
      = st.rigIdx := by
  unfold export_fbx_prep
  dsimp only
  cases hfind : findObjIdxByName st "root" <;>
    cases hm : options.minimize_bones <;>
      by_cases hr : options.remove_bones = [] <;>
        simp [hfind, hm, hr, rigIdx_updateRigObj, rigIdx_setObjName]

theorem export_fbx_prep_length (fnm : String → String → Bool)
    (resolveGret : BObj → BObj) (st : FbxScene) (objects : List BObj)
    (options : Options) :
    (export_fbx_prep fnm resolveGret st objects options).1.objects.length
      = st.objects.length := by
  unfold export_fbx_prep
  dsimp only
  cases hfind : findObjIdxByName st "root" <;>
    cases hm : options.minimize_bones <;>
      by_cases hr : options.remove_bones = [] <;>
        simp [hfind, hm, hr, length_updateRigObj, length_setObjName]

theorem export_fbx_prep_saved (fnm : String → String → Bool)
    (resolveGret : BObj → BObj) (st : FbxScene) (objects : List BObj)
    (options : Options) :
    (export_fbx_prep fnm resolveGret st objects options).2.1 =
      (match findObjIdxByName st "root" with
       | some j => if j = st.rigIdx then "root_" else objNameAt st st.rigIdx
       | none => objNameAt st st.rigIdx) := by
  unfold export_fbx_prep
  dsimp only
  cases hfind : findObjIdxByName st "root" with
  | none => rfl
  | some j =>
    dsimp only
    rw [rigIdx_setObjName]
    by_cases hj : j = st.rigIdx
    · subst hj
      rw [if_pos rfl]
      exact objNameAt_setObjName_self st st.rigIdx _
        (findObjIdxByName_some hfind).1
    · rw [if_neg hj,
        objNameAt_setObjName_ne st j st.rigIdx _ (fun hh => hj hh.symm)]

theorem objNameAt_selection (s : FbxScene) (sn : List String)
    (an : Option String) (k : Nat) :
    objNameAt { s with selectedNames := sn, activeName := an } k
      = objNameAt s k := rfl

theorem export_fbx_prep_objNameAt (fnm : String → String → Bool)
    (resolveGret : BObj → BObj) (st : FbxScene) (objects : List BObj)
    (options : Options) (hrg : ∀ o, (resolveGret o).name = o.name) (k : Nat) :
    objNameAt (export_fbx_prep fnm resolveGret st objects options).1 k =
      objNameAt (setObjName
        (match findObjIdxByName st "root" with
         | some j => setObjName st j "root_"
         | none => st) st.rigIdx "root") k := by
  unfold export_fbx_prep
  dsimp only
  cases hfind : findObjIdxByName st "root" <;>
    cases hm : options.minimize_bones <;>
      by_cases hr : options.remove_bones = [] <;>
        simp [hfind, hm, hr, objNameAt_selection, objNameAt_updateRigObj,
          rigIdx_setObjName, clear_pose_getD_name resolveGret hrg]

/-- C6 (amended): with no action, `export_fbx` hands the host exporter a
scene in which the armature is named `root` and any pre-existing distinct
object named `root` has been renamed `root_`; when the host operator returns
normally both names are restored.  (The restore does NOT run when the host
operator raises — see the counterexample — since the source has no
try/finally around the call.) -/
theorem export_fbx_rename_scoped (fnm : String → String → Bool)
    (resolveGret : BObj → BObj)
    (fbxOp : FbxScene → ExResult FbxScene OpResult) (st : FbxScene)
    (objects : List BObj) (options : Options)
    (hrg : ∀ o, (resolveGret o).name = o.name)
    (hrig : st.rigIdx < st.objects.length) :
    objNameAt (export_fbx_prep fnm resolveGret st objects options).1 st.rigIdx
      = "root" ∧
    (∀ j, findObjIdxByName st "root" = some j → j ≠ st.rigIdx →
      objNameAt (export_fbx_prep fnm resolveGret st objects options).1 j
        = "root_") ∧
    (∀ r s5,
      fbxOp (export_fbx_prep fnm resolveGret st objects options).1 = .ok r s5 →
      s5.objects.length = st.objects.length →
      objNameAt (export_fbx fnm resolveGret fbxOp st objects none options).2
          st.rigIdx = objNameAt st st.rigIdx ∧
      (∀ j, findObjIdxByName st "root" = some j →
        objNameAt (export_fbx fnm resolveGret fbxOp st objects none options).2
          j = objNameAt st j)) := by
  refine ⟨?_, ?_, ?_⟩
  · rw [export_fbx_prep_objNameAt fnm resolveGret st objects options hrg]
    cases hfind : findObjIdxByName st "root" with
    | none => exact objNameAt_setObjName_self st st.rigIdx _ hrig
    | some j =>
      dsimp only
      refine objNameAt_setObjName_self _ st.rigIdx _ ?_
      rw [length_setObjName]
      exact hrig
  · intro j hfind hne
    rw [export_fbx_prep_objNameAt fnm resolveGret st objects options hrg, hfind]
    dsimp only
    rw [objNameAt_setObjName_ne _ st.rigIdx j _ hne]
    exact objNameAt_setObjName_self st j _ (findObjIdxByName_some hfind).1
  · intro r s5 hfb hlen5
    have hfinal :
        export_fbx fnm resolveGret fbxOp st objects none options =
          (r, match findObjIdxByName st "root" with
              | some j => setObjName
                  (setObjName s5 st.rigIdx
                    (export_fbx_prep fnm resolveGret st objects options).2.1)
                  j "root"
              | none => setObjName s5 st.rigIdx
                  (export_fbx_prep fnm resolveGret st objects options).2.1) := by
      unfold export_fbx intercept export_fbx_inner
      dsimp only
      rw [hfb]
      rw [export_fbx_prep_existing]
    rw [hfinal]
    have hsaved := export_fbx_prep_saved fnm resolveGret st objects options
    cases hfind : findObjIdxByName st "root" with
    | none =>
      rw [hfind] at hsaved
      dsimp only at hsaved
      constructor
      · dsimp only
        rw [hsaved]
        exact objNameAt_setObjName_self s5 st.rigIdx _ (by omega)
      · intro j hj
        cases hj
    | some j =>
      rw [hfind] at hsaved
      dsimp only at hsaved
      have hjlen : j < st.objects.length := (findObjIdxByName_some hfind).1
      have hjname : objNameAt st j = "root" := (findObjIdxByName_some hfind).2
      by_cases hj : j = st.rigIdx
      · rw [if_pos hj] at hsaved
        subst hj
        constructor
        · dsimp only
          rw [objNameAt_setObjName_self _ st.rigIdx _
            (by rw [length_setObjName]; omega)]
          exact hjname.symm
        · intro j' hj'
          cases hj'
          dsimp only
          rw [objNameAt_setObjName_self _ st.rigIdx _
            (by rw [length_setObjName]; omega)]
          exact hjname.symm
      · rw [if_neg hj] at hsaved
        constructor
        · dsimp only
          rw [objNameAt_setObjName_ne _ j st.rigIdx _ (fun hh => hj hh.symm)]
          rw [objNameAt_setObjName_self s5 st.rigIdx _ (by omega)]
          exact hsaved
        · intro j' hj'
          cases hj'
          dsimp only
          rw [objNameAt_setObjName_self _ j _
            (by rw [length_setObjName]; omega)]
          exact hjname.symm

/-- Witness for C6 on `stFbxSample` (rig `MyRig`, collider `root`) with a
normally returning host exporter. -/
theorem export_fbx_rename_scoped_witness :
    objNameAt fbxPrepSample stFbxSample.rigIdx = "root" ∧
    objNameAt (export_fbx eqName id fbxOkOp stFbxSample [] none optsDefault).2
      stFbxSample.rigIdx = objNameAt stFbxSample stFbxSample.rigIdx ∧
    objNameAt (export_fbx eqName id fbxOkOp stFbxSample [] none optsDefault).2
      1 = objNameAt stFbxSample 1 := by
  have h := export_fbx_rename_scoped eqName id fbxOkOp stFbxSample []
    optsDefault (fun o => rfl) (by decide)
  have hc := h.2.2 .FINISHED (export_fbx_prep eqName id stFbxSample [] optsDefault).1
    rfl (by decide)
  exact ⟨h.1, hc.1, hc.2 1 (by decide)⟩

/-- Counterexample to C6 as stated: when the host FBX operator raises, the
wrapper still yields `CANCELLED`, but neither the armature's name (`MyRig`,
stuck as `root`) nor the collider's name (`root`, stuck as `root_`) is
restored. -/
theorem export_fbx_rename_lost_on_raise :
    (export_fbx eqName id fbxFailOp stFbxSample [] none optsDefault).1
      = .CANCELLED ∧
    objNameAt stFbxSample 0 = "MyRig" ∧
    objNameAt (export_fbx eqName id fbxFailOp stFbxSample [] none optsDefault).2
      0 = "root" ∧
    objNameAt stFbxSample 1 = "root" ∧
    objNameAt (export_fbx eqName id fbxFailOp stFbxSample [] none optsDefault).2
      1 = "root_" := by decide

/-! ### Lemmas for the bone-flag procedures (C3, C4) -/

theorem set_self_of_getElem? {α : Type} :
    ∀ (l : List α) (i : Nat) (a : α), l[i]? = some a → l.set i a = l
  | [], _, _, h => by cases h
  | b :: l, 0, a, h => by
    have hba : b = a := by simpa using h
    subst hba
    rfl
  | b :: l, i + 1, a, h => by
    have ih := set_self_of_getElem? l i a (by simpa using h)
    simp only [List.set_cons_succ, ih]

theorem length_setDeform (bs : List Bone) (i : Nat) (d : Bool) :
    (setDeform bs i d).length = bs.length := by
  unfold setDeform
  split <;> simp

theorem getElem?_setDeform (bs : List Bone) (i : Nat) (d : Bool) (j : Nat) :
    (setDeform bs i d)[j]? =
      (bs[j]?).map (fun b => if i = j then { b with use_deform := d } else b) := by
  unfold setDeform
  cases hg : bs[i]? with
  | none =>
    by_cases hij : i = j
    · subst hij
      rw [hg]
      rfl
    · cases hb : bs[j]? <;> simp [hij]
  | some b =>
    rw [List.getElem?_set]
    by_cases hij : i = j
    · subst hij
      rw [if_pos rfl, if_pos (List.getElem?_eq_some.mp hg).1, hg]
      simp
    · rw [if_neg hij]
      cases hb : bs[j]? <;> simp [hij]

theorem deformAt_setDeform_self {bs : List Bone} {i : Nat} (d : Bool)
    (h : i < bs.length) : deformAt (setDeform bs i d) i = d := by
  unfold deformAt
  rw [getElem?_setDeform]
  cases hg : bs[i]? with
  | none =>
    have := List.getElem?_eq_none_iff.mp hg
    omega
  | some b => simp

theorem deformAt_setDeform_ne {bs : List Bone} {i j : Nat} (d : Bool)
    (h : i ≠ j) : deformAt (setDeform bs i d) j = deformAt bs j := by
  unfold deformAt
  rw [getElem?_setDeform]
  cases hg : bs[j]? <;> simp [h]

theorem parentAt_setDeform (bs : List Bone) (i : Nat) (d : Bool) (j : Nat) :
    parentAt (setDeform bs i d) j = parentAt bs j := by
  unfold parentAt
  rw [getElem?_setDeform]
  cases hg : bs[j]? with
  | none => rfl
  | some b => by_cases hij : i = j <;> simp [hij]

theorem map_bname_setDeform (bs : List Bone) (i : Nat) (d : Bool) :
    (setDeform bs i d).map Bone.bname = bs.map Bone.bname := by
  unfold setDeform
  cases hg : bs[i]? with
  | none => rfl
  | some b =>
    rw [List.map_set]
    refine set_self_of_getElem? _ i _ ?_
    rw [List.getElem?_map, hg]
    rfl

theorem map_parent_setDeform (bs : List Bone) (i : Nat) (d : Bool) :
    (setDeform bs i d).map Bone.parent = bs.map Bone.parent := by
  unfold setDeform
  cases hg : bs[i]? with
  | none => rfl
  | some b =>
    rw [List.map_set]
    refine set_self_of_getElem? _ i _ ?_
    rw [List.getElem?_map, hg]
    rfl

theorem parentAt_eq_of_map {bs1 bs2 : List Bone}
    (h : bs1.map Bone.parent = bs2.map Bone.parent) (k : Nat) :
    parentAt bs1 k = parentAt bs2 k := by
  unfold parentAt
  have h1 := congrArg (fun l => l[k]?) h
  simp only [List.getElem?_map] at h1
  cases hc1 : bs1[k]? with
  | none =>
    cases hc2 : bs2[k]? with
    | none => rfl
    | some b2 => rw [hc1, hc2] at h1; cases h1
  | some b1 =>
    cases hc2 : bs2[k]? with
    | none => rw [hc1, hc2] at h1; cases h1
    | some b2 =>
      rw [hc1, hc2] at h1
      exact Option.some.inj (by simpa using h1)

theorem nameAt_eq_of_map {bs1 bs2 : List Bone}
    (h : bs1.map Bone.bname = bs2.map Bone.bname) (k : Nat) :
    nameAt bs1 k = nameAt bs2 k := by
  unfold nameAt
  have h1 := congrArg (fun l => l[k]?) h
  simp only [List.getElem?_map] at h1
  cases hc1 : bs1[k]? with
  | none =>
    cases hc2 : bs2[k]? with
    | none => rfl
    | some b2 => rw [hc1, hc2] at h1; cases h1
  | some b1 =>
    cases hc2 : bs2[k]? with
    | none => rw [hc1, hc2] at h1; cases h1
    | some b2 =>
      rw [hc1, hc2] at h1
      have h2 : b1.bname = b2.bname := Option.some.inj (by simpa using h1)
      simp [h2]

theorem isAncestor_congr {bs1 bs2 : List Bone}
    (h : ∀ k, parentAt bs1 k = parentAt bs2 k) :
    ∀ (f i j : Nat), isAncestor bs1 f i j = isAncestor bs2 f i j := by
  intro f
  induction f with
  | zero => intro i j; rfl
  | succ f ih =>
    intro i j
    unfold isAncestor
    rw [h j]
    cases parentAt bs2 j with
    | none => rfl
    | some p =>
      dsimp only
      rw [ih]

theorem chainContains_congr {bs1 bs2 : List Bone}
    (h : ∀ k, parentAt bs1 k = parentAt bs2 k) :
    ∀ (f j i : Nat), chainContains bs1 f j i = chainContains bs2 f j i := by
  intro f
  induction f with
  | zero => intro j i; rfl
  | succ f ih =>
    intro j i
    unfold chainContains
    rw [h j]
    cases parentAt bs2 j with
    | none => rfl
    | some p =>
      dsimp only
      rw [ih]

theorem parentsWF_lt {bs : List Bone} (h : parentsWFb bs = true) :
    ∀ a b, parentAt bs a = some b → b < a := by
  intro a b hab
  have ha : a < bs.length := by
    unfold parentAt at hab
    cases hg : bs[a]? with
    | none => rw [hg] at hab; cases hab
    | some bone => exact (List.getElem?_eq_some.mp hg).1
  have hall := List.all_eq_true.mp h a (List.mem_range.mpr ha)
  simp only [hab] at hall
  exact of_decide_eq_true hall

theorem map_bname_markChain :
    ∀ (f : Nat) (bs : List Bone) (i : Nat),
      (markChain bs f i).map Bone.bname = bs.map Bone.bname := by
  intro f
  induction f with
  | zero => intro bs i; rfl
  | succ f ih =>
    intro bs i
    unfold markChain
    dsimp only
    cases hp : parentAt bs i with
    | none => exact map_bname_setDeform ..
    | some p =>
      dsimp only
      rw [ih, map_bname_setDeform]

theorem map_parent_markChain :
    ∀ (f : Nat) (bs : List Bone) (i : Nat),
      (markChain bs f i).map Bone.parent = bs.map Bone.parent := by
  intro f
  induction f with
  | zero => intro bs i; rfl
  | succ f ih =>
    intro bs i
    unfold markChain
    dsimp only
    cases hp : parentAt bs i with
    | none => exact map_parent_setDeform ..
    | some p =>
      dsimp only
      rw [ih, map_parent_setDeform]

theorem deformAt_markChain :
    ∀ (f : Nat) (bs : List Bone) (i k : Nat),
      (∀ a b, parentAt bs a = some b → b < a) → i < bs.length → i < f →
      deformAt (markChain bs f i) k
        = (deformAt bs k || chainContains bs f i k) := by
  intro f
  induction f with
  | zero => intro bs i k _ _ hf; exact absurd hf (by omega)
  | succ f ih =>
    intro bs i k hwf hi hf
    unfold markChain chainContains
    dsimp only
    cases hp : parentAt bs i with
    | none =>
      dsimp only
      by_cases hik : i = k
      · subst hik
        rw [deformAt_setDeform_self true hi]
        simp
      · rw [deformAt_setDeform_ne true hik]
        have hne : (i == k) = false := by simpa using hik
        rw [hne]
        simp
    | some p =>
      dsimp only
      have hpi : p < i := hwf i p hp
      have hwf1 : ∀ a b, parentAt (setDeform bs i true) a = some b → b < a := by
        intro a b hab
        rw [parentAt_setDeform] at hab
        exact hwf a b hab
      have hlen1 : p < (setDeform bs i true).length := by
        rw [length_setDeform]; omega
      rw [ih (setDeform bs i true) p k hwf1 hlen1 (by omega)]
      rw [chainContains_congr (fun k2 => parentAt_setDeform bs i true k2) f p k]
      by_cases hik : i = k
      · subst hik
        rw [deformAt_setDeform_self true hi]
        simp
      · rw [deformAt_setDeform_ne true hik]
        have hne : (i == k) = false := by simpa using hik
        rw [hne]
        cases deformAt bs k <;> cases chainContains bs f p k <;> simp

theorem ancRel_trans {bs : List Bone} {i j : Nat} (h1 : AncRel bs i j) :
    ∀ m, AncRel bs m i → AncRel bs m j := by
  induction h1 with
  | parent hp => intro m h2; exact AncRel.step hp h2
  | step hp h ih => intro m h2; exact AncRel.step hp (ih m h2)

theorem ancRel_of_isAncestor :
    ∀ (f : Nat) {bs : List Bone} {i j : Nat},
      isAncestor bs f i j = true → AncRel bs i j := by
  intro f
  induction f with
  | zero => intro bs i j h; cases h
  | succ f ih =>
    intro bs i j h
    unfold isAncestor at h
    cases hp : parentAt bs j with
    | none => rw [hp] at h; cases h
    | some p =>
      rw [hp] at h
      dsimp only at h
      simp only [Bool.or_eq_true] at h
      rcases h with h1 | h2
      · have hpi : p = i := by simpa using h1
        subst hpi
        exact AncRel.parent hp
      · exact AncRel.step hp (ih h2)

theorem isAncestor_of_ancRel {bs : List Bone}
    (hwf : ∀ a b, parentAt bs a = some b → b < a) {i j : Nat}
    (h : AncRel bs i j) : ∀ f, j ≤ f → isAncestor bs f i j = true := by
  induction h with
  | @parent j hp =>
    intro f hf
    have hij : i < j := hwf j i hp
    cases f with
    | zero => omega
    | succ f =>
      unfold isAncestor
      rw [hp]
      simp
  | @step p j hp h ih =>
    intro f hf
    have hpj : p < j := hwf j p hp
    cases f with
    | zero => omega
    | succ f =>
      unfold isAncestor
      rw [hp]
      have := ih f (by omega)
      simp [this]

theorem chainContains_self (bs : List Bone) (j : Nat) :
    ∀ f, 0 < f → chainContains bs f j j = true := by
  intro f hf
  cases f with
  | zero => omega
  | succ f =>
    unfold chainContains
    simp

theorem chainContains_imp :
    ∀ (f : Nat) {bs : List Bone} {j k : Nat},
      chainContains bs f j k = true → k = j ∨ AncRel bs k j := by
  intro f
  induction f with
  | zero => intro bs j k h; cases h
  | succ f ih =>
    intro bs j k h
    unfold chainContains at h
    simp only [Bool.or_eq_true] at h
    rcases h with h1 | h2
    · left
      exact (by simpa using h1 : j = k).symm
    · cases hp : parentAt bs j with
      | none => rw [hp] at h2; cases h2
      | some p =>
        rw [hp] at h2
        rcases ih h2 with h3 | h3
        · right
          subst h3
          exact AncRel.parent hp
        · right
          exact AncRel.step hp h3

theorem chainContains_of_rel {bs : List Bone}
    (hwf : ∀ a b, parentAt bs a = some b → b < a) {j k : Nat}
    (hrel : k = j ∨ AncRel bs k j) : ∀ f, j < f → chainContains bs f j k = true := by
  rcases hrel with h | h
  · intro f hf
    subst h
    exact chainContains_self bs k f (by omega)
  · induction h with
    | @parent j hp =>
      intro f hf
      have hkj : k < j := hwf j k hp
      cases f with
      | zero => omega
      | succ f =>
        unfold chainContains
        rw [hp]
        dsimp only
        have := chainContains_self bs k f (by omega)
        simp [this]
    | @step p j hp h ih =>
      intro f hf
      have hpj : p < j := hwf j p hp
      cases f with
      | zero => omega
      | succ f =>
        unfold chainContains
        rw [hp]
        dsimp only
        have := ih f (by omega)
        simp [this]

theorem findBoneIdxAux_some {g : String} :
    ∀ {l : List Bone} {j : Nat}, findBoneIdxAux g l = some j →
      j < l.length ∧ nameAt l j = g := by
  intro l
  induction l with
  | nil => intro j h; cases h
  | cons b rest ih =>
    intro j h
    unfold findBoneIdxAux at h
    by_cases hb : (b.bname == g) = true
    · rw [if_pos hb] at h
      cases h
      exact ⟨by simp, by simpa [nameAt] using beq_iff_eq.mp hb⟩
    · rw [if_neg hb] at h
      cases hr : findBoneIdxAux g rest with
      | none => rw [hr] at h; cases h
      | some k =>
        rw [hr] at h
        cases h
        have := ih hr
        refine ⟨by simpa using this.1, ?_⟩
        simpa [nameAt] using this.2

theorem findBoneIdxAux_congr {g : String} :
    ∀ {l1 l2 : List Bone}, l1.map Bone.bname = l2.map Bone.bname →
      findBoneIdxAux g l1 = findBoneIdxAux g l2 := by
  intro l1
  induction l1 with
  | nil =>
    intro l2 h
    cases l2 with
    | nil => rfl
    | cons b2 t2 => simp at h
  | cons b t ih =>
    intro l2 h
    cases l2 with
    | nil => simp at h
    | cons b2 t2 =>
      simp only [List.map_cons, List.cons.injEq] at h
      unfold findBoneIdxAux
      rw [h.1, ih h.2]

theorem findBoneIdx_self_of_nodup :
    ∀ {l : List Bone}, (l.map Bone.bname).Nodup →
      ∀ {j : Nat}, j < l.length → findBoneIdxAux (nameAt l j) l = some j := by
  intro l
  induction l with
  | nil => intro _ j hj; simp at hj
  | cons b rest ih =>
    intro hnd j hj
    rcases List.nodup_cons.mp hnd with ⟨hbm, hndr⟩
    cases j with
    | zero =>
      unfold findBoneIdxAux
      rw [if_pos]
      simp [nameAt]
    | succ j =>
      have hjr : j < rest.length := by simpa using hj
      have hname : nameAt (b :: rest) (j + 1) = nameAt rest j := by
        simp [nameAt]
      rw [hname]
      unfold findBoneIdxAux
      have hmem : nameAt rest j ∈ rest.map Bone.bname := by
        have hg : rest[j]? = some rest[j] := List.getElem?_eq_getElem hjr
        have : nameAt rest j = rest[j].bname := by simp [nameAt, hg]
        rw [this]
        exact List.mem_map_of_mem Bone.bname (List.getElem_mem hjr)
      have hbne : (b.bname == nameAt rest j) = false := by
        rw [beq_eq_false_iff_ne]
        intro he
        exact hbm (he ▸ hmem)
      rw [if_neg (by simp [hbne]), ih hndr hjr]
      rfl

theorem deformAt_cleared (bs : List Bone) (k : Nat) :
    deformAt (bs.map (fun b => { b with use_deform := false })) k = false := by
  unfold deformAt
  rw [List.getElem?_map]
  cases bs[k]? <;> rfl

theorem map_bname_cleared (bs : List Bone) :
    (bs.map (fun b => { b with use_deform := false })).map Bone.bname
      = bs.map Bone.bname := by
  rw [List.map_map]
  rfl

theorem map_parent_cleared (bs : List Bone) :
    (bs.map (fun b => { b with use_deform := false })).map Bone.parent
      = bs.map Bone.parent := by
  rw [List.map_map]
  rfl

theorem deformAt_foldl_markVG (bs0 : List Bone)
    (hwf : ∀ a b, parentAt bs0 a = some b → b < a) :
    ∀ (gs : List String) (acc : List Bone),
      acc.map Bone.bname = bs0.map Bone.bname →
      acc.map Bone.parent = bs0.map Bone.parent →
      ∀ k, deformAt (gs.foldl markVGStep acc) k
        = (deformAt acc k || gs.any (fun g =>
            match findBoneIdx bs0 g with
            | some j => chainContains bs0 (j + 1) j k
            | none => false)) := by
  intro gs
  induction gs with
  | nil => intro acc _ _ k; simp
  | cons g gs ih =>
    intro acc hbn hpar k
    rw [List.foldl_cons]
    have hfind : findBoneIdx acc g = findBoneIdx bs0 g := findBoneIdxAux_congr hbn
    cases hf : findBoneIdx bs0 g with
    | none =>
      have hstep : markVGStep acc g = acc := by
        unfold markVGStep findBoneIdx
        unfold findBoneIdx at hfind hf
        rw [hfind, hf]
      rw [hstep, ih acc hbn hpar k]
      simp only [List.any_cons, hf]
      rfl
    | some j =>
      have hstep : markVGStep acc g = markChain acc (j + 1) j := by
        unfold markVGStep findBoneIdx
        unfold findBoneIdx at hfind hf
        rw [hfind, hf]
      have hlen : acc.length = bs0.length := by
        have := congrArg List.length hbn
        simpa using this
      have hj0 := @findBoneIdxAux_some g bs0 j hf
      have hjlen : j < acc.length := by omega
      have hwfacc : ∀ a b, parentAt acc a = some b → b < a := by
        intro a b hab
        rw [parentAt_eq_of_map hpar] at hab
        exact hwf a b hab
      have hbn2 : (markChain acc (j + 1) j).map Bone.bname = bs0.map Bone.bname := by
        rw [map_bname_markChain]; exact hbn
      have hpar2 : (markChain acc (j + 1) j).map Bone.parent = bs0.map Bone.parent := by
        rw [map_parent_markChain]; exact hpar
      rw [hstep, ih _ hbn2 hpar2 k]
      rw [deformAt_markChain (j + 1) acc j k hwfacc hjlen (by omega)]
      rw [chainContains_congr (fun k2 => parentAt_eq_of_map hpar k2) (j + 1) j k]
      simp only [List.any_cons, hf]
      cases deformAt acc k <;> cases chainContains bs0 (j + 1) j k <;> simp

/-- C4: after `unmark_unused_bones(rig, objs)`, bone `k` deforms exactly when
`k` itself or one of its descendants `j` bears the name of a vertex group of
some mesh in `objs`; every other bone is left with deform disabled, whatever
the prior flags were.  Hypotheses: parents point downward in the bone list
(the host's ordering) and bone names are unique (the host enforces this). -/
theorem unmark_unused_bones_spec (bs : List Bone) (objs : List BObj)
    (hwf : parentsWFb bs = true) (hnd : (bs.map Bone.bname).Nodup) (k : Nat) :
    deformAt (unmark_unused_bones bs objs) k = true ↔
      ∃ j, j < bs.length ∧ nameAt bs j ∈ vgroupNames objs ∧
        (k = j ∨ AncRel bs k j) := by
  have hwf' : ∀ a b, parentAt bs a = some b → b < a := parentsWF_lt hwf
  unfold unmark_unused_bones
  dsimp only
  rw [deformAt_foldl_markVG bs hwf' (vgroupNames objs) _
    (map_bname_cleared bs) (map_parent_cleared bs) k]
  rw [deformAt_cleared]
  rw [Bool.false_or]
  rw [List.any_eq_true]
  constructor
  · rintro ⟨g, hg, hmatch⟩
    cases hfb : findBoneIdx bs g with
    | none => rw [hfb] at hmatch; cases hmatch
    | some j =>
      rw [hfb] at hmatch
      have hj := @findBoneIdxAux_some g bs j hfb
      exact ⟨j, hj.1, by rw [hj.2]; exact hg, chainContains_imp (j + 1) hmatch⟩
  · rintro ⟨j, hjlen, hjmem, hrel⟩
    refine ⟨nameAt bs j, hjmem, ?_⟩
    have : findBoneIdx bs (nameAt bs j) = some j :=
      findBoneIdx_self_of_nodup hnd hjlen
    rw [this]
    exact chainContains_of_rel hwf' hrel (j + 1) (by omega)

/-- Witness for C4 on the chain `a → b → c` with a mesh skinned to `b`:
bones `a` and `b` end marked, `c` ends unmarked. -/
theorem unmark_unused_bones_spec_witness :
    (deformAt (unmark_unused_bones bsChain [meshVGb]) 0 = true ↔
      ∃ j, j < bsChain.length ∧ nameAt bsChain j ∈ vgroupNames [meshVGb] ∧
        (0 = j ∨ AncRel bsChain 0 j)) ∧
    deformAt (unmark_unused_bones bsChain [meshVGb]) 0 = true ∧
    deformAt (unmark_unused_bones bsChain [meshVGb]) 1 = true ∧
    deformAt (unmark_unused_bones bsChain [meshVGb]) 2 = false :=
  ⟨unmark_unused_bones_spec bsChain [meshVGb] (by decide) (by decide) 0,
   by decide, by decide, by decide⟩

theorem getElem?_clearDescAux (bs : List Bone) (i : Nat) :
    ∀ (l : List Bone) (j0 k : Nat),
      (clearDescAux bs i l j0)[k]? = (l[k]?).map (fun b =>
        if (j0 + k) == i || isAncestor bs (j0 + k) i (j0 + k) then
          { b with use_deform := false }
        else b) := by
  intro l
  induction l with
  | nil => intro j0 k; rfl
  | cons b rest ih =>
    intro j0 k
    cases k with
    | zero => simp [clearDescAux]
    | succ k =>
      unfold clearDescAux
      rw [List.getElem?_cons_succ, List.getElem?_cons_succ, ih (j0 + 1) k]
      have ha : j0 + 1 + k = j0 + (k + 1) := by omega
      rw [ha]

theorem deformAt_clearDescendants (acc : List Bone) (i k : Nat) :
    deformAt (clearDescendants acc i) k =
      if (k == i || isAncestor acc k i k) = true then false
      else deformAt acc k := by
  unfold clearDescendants deformAt
  rw [getElem?_clearDescAux]
  cases hg : acc[k]? with
  | none => simp
  | some b =>
    simp only [Nat.zero_add, Option.map_some]
    split <;> simp_all

theorem map_bname_clearDescAux (bs : List Bone) (i : Nat) :
    ∀ (l : List Bone) (j0 : Nat),
      (clearDescAux bs i l j0).map Bone.bname = l.map Bone.bname := by
  intro l
  induction l with
  | nil => intro j0; rfl
  | cons b rest ih =>
    intro j0
    unfold clearDescAux
    rw [List.map_cons, List.map_cons, ih (j0 + 1)]
    split <;> rfl

theorem map_parent_clearDescAux (bs : List Bone) (i : Nat) :
    ∀ (l : List Bone) (j0 : Nat),
      (clearDescAux bs i l j0).map Bone.parent = l.map Bone.parent := by
  intro l
  induction l with
  | nil => intro j0; rfl
  | cons b rest ih =>
    intro j0
    unfold clearDescAux
    rw [List.map_cons, List.map_cons, ih (j0 + 1)]
    split <;> rfl

theorem map_bname_unmarkStep (fnm : String → String → Bool)
    (patterns : List String) (acc : List Bone) (i : Nat) :
    (unmarkStep fnm patterns acc i).map Bone.bname = acc.map Bone.bname := by
  unfold unmarkStep
  split
  · exact map_bname_clearDescAux ..
  · rfl

theorem map_parent_unmarkStep (fnm : String → String → Bool)
    (patterns : List String) (acc : List Bone) (i : Nat) :
    (unmarkStep fnm patterns acc i).map Bone.parent = acc.map Bone.parent := by
  unfold unmarkStep
  split
  · exact map_parent_clearDescAux ..
  · rfl

theorem map_bname_foldl_unmark (fnm : String → String → Bool)
    (patterns : List String) :
    ∀ (l : List Nat) (acc : List Bone),
      (l.foldl (unmarkStep fnm patterns) acc).map Bone.bname
        = acc.map Bone.bname := by
  intro l
  induction l with
  | nil => intro acc; rfl
  | cons m l ih =>
    intro acc
    rw [List.foldl_cons, ih, map_bname_unmarkStep]

theorem map_parent_foldl_unmark (fnm : String → String → Bool)
    (patterns : List String) :
    ∀ (l : List Nat) (acc : List Bone),
      (l.foldl (unmarkStep fnm patterns) acc).map Bone.parent
        = acc.map Bone.parent := by
  intro l
  induction l with
  | nil => intro acc; rfl
  | cons m l ih =>
    intro acc
    rw [List.foldl_cons, ih, map_parent_unmarkStep]

theorem deformAt_unmarkStep_false (fnm : String → String → Bool)
    (patterns : List String) {acc : List Bone} {k : Nat} (i : Nat)
    (h : deformAt acc k = false) :
    deformAt (unmarkStep fnm patterns acc i) k = false := by
  unfold unmarkStep
  split
  · rw [deformAt_clearDescendants]
    split
    · rfl
    · exact h
  · exact h

theorem deformAt_foldl_unmark_false (fnm : String → String → Bool)
    (patterns : List String) {k : Nat} :
    ∀ (l : List Nat) (acc : List Bone), deformAt acc k = false →
      deformAt (l.foldl (unmarkStep fnm patterns) acc) k = false := by
  intro l
  induction l with
  | nil => intro acc h; exact h
  | cons m l ih =>
    intro acc h
    rw [List.foldl_cons]
    exact ih _ (deformAt_unmarkStep_false fnm patterns m h)

theorem deformAt_true_lt {bs : List Bone} {i : Nat}
    (h : deformAt bs i = true) : i < bs.length := by
  unfold deformAt at h
  cases hg : bs[i]? with
  | none => rw [hg] at h; cases h
  | some b => exact (List.getElem?_eq_some.mp hg).1

theorem deformAt_unmarkStep_self (fnm : String → String → Bool)
    (patterns : List String) (acc : List Bone) (i : Nat)
    (hm : matchesAny fnm patterns (nameAt acc i) = true) :
    deformAt (unmarkStep fnm patterns acc i) i = false := by
  unfold unmarkStep
  by_cases hd : deformAt acc i = true
  · rw [if_pos (by rw [hd, hm]; rfl)]
    rw [deformAt_clearDescendants]
    rw [if_pos (by simp)]
  · have hdf : deformAt acc i = false := by
      cases hx : deformAt acc i
      · rfl
      · exact absurd hx hd
    split
    · rw [deformAt_clearDescendants]
      split
      · rfl
      · exact hdf
    · exact hdf

theorem unmark_bones_matching (fnm : String → String → Bool) (bs : List Bone)
    (patterns : List String) (i : Nat) (hi : i < bs.length)
    (hm : matchesAny fnm patterns (nameAt bs i) = true) :
    deformAt (unmark_bones fnm bs patterns) i = false := by
  unfold unmark_bones
  have hn : bs.length = i + ((bs.length - i - 1) + 1) := by omega
  rw [hn, List.range_add, List.foldl_append, List.range_succ_eq_map,
    List.map_cons, List.foldl_cons]
  have hi0 : i + 0 = i := by omega
  rw [hi0]
  apply deformAt_foldl_unmark_false
  have hname : nameAt ((List.range i).foldl (unmarkStep fnm patterns) bs) i
      = nameAt bs i :=
    nameAt_eq_of_map (map_bname_foldl_unmark fnm patterns (List.range i) bs) i
  exact deformAt_unmarkStep_self fnm patterns _ i (by rw [hname]; exact hm)

theorem unmark_invariant (fnm : String → String → Bool)
    (patterns : List String) (bs : List Bone)
    (hwf : ∀ a b, parentAt bs a = some b → b < a) (i j : Nat)
    (hanc : AncRel bs i j) :
    ∀ (l : List Nat) (acc : List Bone),
      acc.map Bone.bname = bs.map Bone.bname →
      acc.map Bone.parent = bs.map Bone.parent →
      (deformAt acc i = true ∨ deformAt acc j = false) →
      (deformAt (l.foldl (unmarkStep fnm patterns) acc) i = true ∨
       deformAt (l.foldl (unmarkStep fnm patterns) acc) j = false) := by
  intro l
  induction l with
  | nil => intro acc _ _ h; exact h
  | cons m l ih =>
    intro acc hbn hpar hinv
    rw [List.foldl_cons]
    refine ih (unmarkStep fnm patterns acc m) ?_ ?_ ?_
    · rw [map_bname_unmarkStep]; exact hbn
    · rw [map_parent_unmarkStep]; exact hpar
    · unfold unmarkStep
      by_cases hcond :
          (deformAt acc m && matchesAny fnm patterns (nameAt acc m)) = true
      · rw [if_pos hcond]
        rcases hinv with hL | hR
        · by_cases hclr : (i == m || isAncestor acc i m i) = true
          · right
            rw [deformAt_clearDescendants]
            have hel : m = i ∨ AncRel bs m i := by
              simp only [Bool.or_eq_true] at hclr
              rcases hclr with h1 | h1
              · exact Or.inl (by simpa using h1 : i = m).symm
              · refine Or.inr ?_
                have h2 : isAncestor bs i m i = true := by
                  rw [← isAncestor_congr
                    (fun k => parentAt_eq_of_map hpar k) i m i]
                  exact h1
                exact ancRel_of_isAncestor i h2
            have hmj : AncRel bs m j := by
              rcases hel with h1 | h1
              · subst h1; exact hanc
              · exact ancRel_trans hanc m h1
            have h3 : isAncestor bs j m j = true :=
              isAncestor_of_ancRel hwf hmj j (Nat.le_refl j)
            rw [← isAncestor_congr
              (fun k => parentAt_eq_of_map hpar k) j m j] at h3
            simp [h3]
          · left
            rw [deformAt_clearDescendants, if_neg hclr]
            exact hL
        · right
          rw [deformAt_clearDescendants]
          split
          · rfl
          · exact hR
      · rw [if_neg hcond]
        exact hinv

theorem unmark_bones_desc (fnm : String → String → Bool) (bs : List Bone)
    (patterns : List String)
    (hwf : ∀ a b, parentAt bs a = some b → b < a) (i j : Nat)
    (hm : matchesAny fnm patterns (nameAt bs i) = true)
    (hd : deformAt bs i = true) (hanc : AncRel bs i j) :
    deformAt (unmark_bones fnm bs patterns) j = false := by
  have hi : i < bs.length := deformAt_true_lt hd
  have hfin := unmark_invariant fnm patterns bs hwf i j hanc
    (List.range bs.length) bs rfl rfl (Or.inl hd)
  have hmat := unmark_bones_matching fnm bs patterns i hi hm
  unfold unmark_bones at hmat ⊢
  rcases hfin with hL | hR
  · rw [hmat] at hL
    cases hL
  · exact hR

/-- C3 (amended): after `unmark_bones(rig, P)` every pattern-matching bone
has its deform flag disabled, and so does every descendant of a matching
bone that still had its deform flag enabled when the loop reached it (the
initial state suffices, since the loop never enables flags).  Descendants of
a matching bone that was ALREADY deform-disabled are NOT touched, because
the source only recurses into `children_recursive` under `if
bone.use_deform` — see the counterexample. -/
theorem unmark_bones_spec (fnm : String → String → Bool) (bs : List Bone)
    (patterns : List String) (hwf : parentsWFb bs = true) :
    (∀ i, i < bs.length → matchesAny fnm patterns (nameAt bs i) = true →
      deformAt (unmark_bones fnm bs patterns) i = false) ∧
    (∀ i j, matchesAny fnm patterns (nameAt bs i) = true →
      deformAt bs i = true → AncRel bs i j →
      deformAt (unmark_bones fnm bs patterns) j = false) :=
  ⟨fun i hi hm => unmark_bones_matching fnm bs patterns i hi hm,
   fun i j hm hd hanc =>
     unmark_bones_desc fnm bs patterns (parentsWF_lt hwf) i j hm hd hanc⟩

/-- Witness for C3 (amended) on the deforming chain `a → b → c` with
pattern list `["a"]`: the match `a` and its grandchild `c` both end
unmarked. -/
theorem unmark_bones_spec_witness :
    deformAt (unmark_bones eqName bsChain ["a"]) 0 = false ∧
    deformAt (unmark_bones eqName bsChain ["a"]) 2 = false :=
  ⟨(unmark_bones_spec eqName bsChain ["a"] (by decide)).1 0 (by decide)
      (by decide),
   (unmark_bones_spec eqName bsChain ["a"] (by decide)).2 0 2 (by decide)
      (by decide)
      (@AncRel.step bsChain 0 1 2 (by decide)
        (@AncRel.parent bsChain 0 1 (by decide)))⟩

/-- Counterexample to C3 as stated: in `bsPair` bone `a` matches the pattern
list but is already deform-disabled, so the loop never recurses into its
children and its deforming child `b` keeps `use_deform = True`. -/
theorem unmark_bones_child_kept :
    matchesAny eqName ["a"] (nameAt bsPair 0) = true ∧
    AncRel bsPair 0 1 ∧
    deformAt (unmark_bones eqName bsPair ["a"]) 1 = true :=
  ⟨by decide, @AncRel.parent bsPair 0 1 (by decide), by decide⟩
